import Mathlib

/-!
Verification of the HomeConnectCoffee event pipeline.

This file gives a shallow embedding, in Lean 4, of the core data model and
operations of the HomeConnectCoffee daemon:

* the SSE stream worker's per-event processing
  (`services/event_stream_manager.py`, `_event_stream_worker`),
* the client broadcast registry (`broadcast_event`),
* the heartbeat monitor (`_heartbeat_monitor`),
* the 429 backoff policy of the stream worker,
* the SQLite-backed history store (`history.py`: `get_history`,
  `get_daily_usage`, `get_program_counts`, `_is_brew_program`),
* the token lifecycle and 401 retry logic (`client.py`: `_ensure_token`,
  `get_access_token`, `_request`).

Python dictionaries that come from `json.loads` are modelled by the `Json`
inductive below; the SQLite `events` table is modelled by a list of rows in
insertion (rowid) order, with the `data` column modelled as `Option Json`
(`none` standing for a TEXT value that is not valid JSON, which is exactly
what `json.loads` failing distinguishes).  SQLite's BINARY collation on TEXT
compares UTF-8 bytes, which coincides with lexicographic comparison of
code points; `strLt`/`strLe` below implement that order.  `float` timestamps
from `time.time()` are modelled as integers; only their ordering matters here.
-/

/-! ## JSON values (results of `json.loads`) -/

inductive Json where
  | null : Json
  | bool (b : Bool) : Json
  | num (n : Int) : Json
  | str (s : String) : Json
  | arr (elems : List Json) : Json
  | obj (kvs : List (String × Json)) : Json

/-- Python truthiness of a decoded JSON value (`if value:`):
`None`, `False`, `0`, `""`, `[]` and `{}` are falsy. -/
def Json.truthy : Json → Bool
  | .null => false
  | .bool b => b
  | .num n => n != 0
  | .str s => s ≠ ""
  | .arr elems => !elems.isEmpty
  | .obj kvs => !kvs.isEmpty

/-- First-match association lookup; Python dicts have unique keys, so this
models `d[k]` presence exactly. -/
def Json.lookup : List (String × Json) → String → Option Json
  | [], _ => none
  | (k, v) :: rest, key => if k = key then some v else Json.lookup rest key

/-- Python `d.get(key, default)`. -/
def dictGet (kvs : List (String × Json)) (key : String) (dflt : Json) : Json :=
  (Json.lookup kvs key).getD dflt

def Json.isObj : Json → Bool
  | .obj _ => true
  | _ => false

/-! ## String utilities

`lowerStr` models Python `str.lower()` (the program keys involved are ASCII);
`containsSub hay pat` models Python `pat in hay`;
`strLt`/`strLe` model SQLite's BINARY comparison of TEXT values. -/

def lowerStr (s : String) : String := String.mk (s.data.map Char.toLower)

def listStartsWith : List Char → List Char → Bool
  | _, [] => true
  | [], _ :: _ => false
  | h :: hs, p :: ps => h == p && listStartsWith hs ps

def hasSegment : List Char → List Char → Bool
  | [], ps => ps.isEmpty
  | h :: hs, ps => listStartsWith (h :: hs) ps || hasSegment hs ps

def containsSub (hay pat : String) : Bool := hasSegment hay.data pat.data

def lexLt : List Char → List Char → Bool
  | [], [] => false
  | [], _ :: _ => true
  | _ :: _, [] => false
  | a :: as, b :: bs =>
    if a.toNat < b.toNat then true
    else if b.toNat < a.toNat then false
    else lexLt as bs

def strLt (a b : String) : Bool := lexLt a.data b.data

def strLe (a b : String) : Bool := strLt a b || a == b

/-! ## Generic insertion sort by a boolean total preorder

Models SQL `ORDER BY`; the order among rows with equal keys is unspecified in
SQL, and none of the verified properties depend on it. -/

def insertSorted {α : Type} (le : α → α → Bool) (x : α) : List α → List α
  | [] => [x]
  | y :: ys => if le x y then x :: y :: ys else y :: insertSorted le x ys

def sortBy {α : Type} (le : α → α → Bool) : List α → List α
  | [] => []
  | x :: xs => insertSorted le x (sortBy le xs)


/-! ## Stream worker: per-event processing
(`event_stream_manager.py`, `_event_stream_worker`, lines 398-461)

`processDecoded ty pl` models the body of the event loop for one SSE event
whose type is `ty` and whose non-empty `data` field was successfully decoded
by `json.loads` into `pl`.  It returns the pairs pushed (in order) onto the
persistence queue `_history_queue` and the events forwarded to
`broadcast_event`.

An item that is not a dict makes `item.get` raise `AttributeError`, which the
`except` at the end of the queue block catches: the remaining items are not
processed, and the already-queued pushes stay.  A payload that is not a dict
makes `payload.get` raise, caught by the same handler; a non-list `items`
value either raises on iteration or iterates over keys/characters, each of
which raises on `.get` — in all cases no `program_started` push results.
The broadcast at the end is outside that `try` block and always runs. -/

def programItemPush (item : Json) : Option (String × Json) :=
  match item with
  | .obj kvs =>
    let itemKey := (Json.lookup kvs "key").getD .null
    let itemValue := (Json.lookup kvs "value").getD .null
    let isActive : Bool := match itemKey with
      | .str s => s = "BSH.Common.Root.ActiveProgram"
      | _ => false
    if isActive && itemValue.truthy then
      match itemValue with
      | .obj vkvs =>
        some ("program_started", .obj
          [("program", dictGet vkvs "key" (.str "Unknown")),
           ("options", dictGet vkvs "options" (.arr []))])
      | .str s =>
        some ("program_started", .obj [("program", .str s), ("options", .arr [])])
      | _ => none
    else none
  | _ => none

def loopItems : List Json → List (String × Json)
  | [] => []
  | item :: rest =>
    match item with
    | .obj kvs =>
      match programItemPush (.obj kvs) with
      | some push => push :: loopItems rest
      | none => loopItems rest
    | _ => []

def processDecoded (event_type : String) (payload : Json) :
    List (String × Json) × List (String × Json) :=
  let base := [(lowerStr event_type, payload)]
  let extra :=
    if event_type = "STATUS" then
      [("status_changed", Json.obj [("event", .str event_type), ("payload", payload)])]
    else if event_type = "EVENT" ∨ event_type = "NOTIFY" then
      match payload with
      | .obj kvs =>
        match dictGet kvs "items" (.arr []) with
        | .arr items => loopItems items
        | _ => []
      | _ => []
    else []
  (base ++ extra, [(event_type, payload)])

/-! ## History store (`history.py`)

A stored row of the `events` table, in rowid (insertion) order.  The `data`
TEXT column is modelled by `Option Json`: `some j` when `json.loads` would
succeed with value `j`, `none` when it would raise `JSONDecodeError`. -/

structure Row where
  timestamp : String
  type : String
  data : Option Json

structure HEvent where
  timestamp : String
  type : String
  data : Json

/-- Python truthiness of the optional string arguments of `get_history`
(`if event_type:` / `if before_timestamp:`): an absent or empty string is
falsy and disables the corresponding filter. -/
def optActiveS : Option String → Option String
  | some s => if s = "" then none else some s
  | none => none

/-- Python truthiness of the optional `limit` (`if limit:`): an absent or
zero limit is falsy and disables the `LIMIT` clause. -/
def optActiveN : Option Nat → Option Nat
  | some n => if n = 0 then none else some n
  | none => none

/-- The `WHERE` clause of `get_history`: `type = ?` and `timestamp < ?`
(SQLite BINARY comparison) for the filters that are active. -/
def historyMatches (et bt : Option String) (r : Row) : Bool :=
  (match et with
   | some t => r.type == t
   | none => true) &&
  (match bt with
   | some c => strLt r.timestamp c
   | none => true)

/-- `ORDER BY timestamp DESC` comparison. -/
def tsDescLe (a b : Row) : Bool := strLe b.timestamp a.timestamp

/-- `ORDER BY timestamp ASC` comparison. -/
def tsAscLe (a b : Row) : Bool := strLe a.timestamp b.timestamp

/-- The row-to-event decode loop at the end of `get_history`: a row whose
`data` column fails `json.loads` is skipped (`except ... continue`). -/
def decodeRow (r : Row) : Option HEvent :=
  match r.data with
  | some d => some ⟨r.timestamp, r.type, d⟩
  | none => none

/-- The page selected by the SQL query of `get_history` when both a cursor
and a limit are active: filtered rows, newest first, truncated to `l`. -/
def sqlPage (store : List Row) (et : Option String) (l : Nat) (c : String) : List Row :=
  (sortBy tsDescLe (store.filter (historyMatches (optActiveS et) (optActiveS (some c))))).take l

/-- `HistoryManager.get_history` (`history.py` lines 162-239). -/
def get_history (store : List Row) (event_type : Option String)
    (limit : Option Nat) (before_timestamp : Option String) : List HEvent :=
  let et := optActiveS event_type
  let bt := optActiveS before_timestamp
  let lim := optActiveN limit
  let filtered := store.filter (historyMatches et bt)
  let rows :=
    match bt, lim with
    | some _, some l => ((sortBy tsDescLe filtered).take l).reverse
    | some _, none => (sortBy tsDescLe filtered).reverse
    | none, some l => ((sortBy tsDescLe filtered).take l).reverse
    | none, none => sortBy tsAscLe filtered
  rows.filterMap decodeRow

/-! ## Calendar model

`get_daily_usage` manipulates real calendar dates: `datetime.now(utc)`
truncated to midnight, `timedelta` subtraction, `strftime("%Y-%m-%d")` and
`datetime.fromisoformat`.  `Date` models a proleptic Gregorian calendar date;
`prevDay` is one `timedelta(days=1)` step backwards; `fmtDate` is
`strftime("%Y-%m-%d")` (zero-padded, for years of at most four digits). -/

structure Date where
  year : Nat
  month : Nat
  day : Nat
deriving DecidableEq

def isLeapYear (y : Nat) : Bool :=
  (y % 4 == 0 && y % 100 != 0) || y % 400 == 0

def daysInMonth (y m : Nat) : Nat :=
  if m = 2 then (if isLeapYear y then 29 else 28)
  else if m = 4 ∨ m = 6 ∨ m = 9 ∨ m = 11 then 30
  else 31

def prevDay (d : Date) : Date :=
  if d.day > 1 then ⟨d.year, d.month, d.day - 1⟩
  else if d.month > 1 then ⟨d.year, d.month - 1, daysInMonth d.year (d.month - 1)⟩
  else ⟨d.year - 1, 12, 31⟩

/-- `date - timedelta(days=n)`. -/
def subDays (d : Date) : Nat → Date
  | 0 => d
  | n + 1 => prevDay (subDays d n)

/-- A calendar date that `datetime` accepts and that `strftime("%Y-%m-%d")`
renders as exactly four year digits (every date this system handles). -/
def validDate (d : Date) : Bool :=
  1000 ≤ d.year && d.year ≤ 9999 &&
  1 ≤ d.month && d.month ≤ 12 &&
  1 ≤ d.day && d.day ≤ daysInMonth d.year d.month

/-- Chronologically monotone measure used to show window dates are distinct. -/
def dateVal (d : Date) : Nat := d.year * 372 + d.month * 31 + d.day

def digitChar (n : Nat) : Char := Char.ofNat (48 + n)

/-- `strftime("%Y-%m-%d")` for a date with at most four year digits. -/
def fmtDate (d : Date) : String :=
  String.mk
    [digitChar (d.year / 1000 % 10), digitChar (d.year / 100 % 10),
     digitChar (d.year / 10 % 10), digitChar (d.year % 10), '-',
     digitChar (d.month / 10 % 10), digitChar (d.month % 10), '-',
     digitChar (d.day / 10 % 10), digitChar (d.day % 10)]

/-- The trailing window of `get_daily_usage`:
`[(today - timedelta(days=i)) for i in range(days - 1, -1, -1)]`. -/
def windowDates (today : Date) (days : Nat) : List Date :=
  ((List.range days).reverse).map (subDays today)

/-- `date_keys_in_range` of `get_daily_usage`. -/
def windowKeys (today : Date) (days : Nat) : List String :=
  (windowDates today days).map fmtDate

/-! ## Timestamp parsing

`get_daily_usage` computes
`datetime.fromisoformat(timestamp_str.replace("Z", "+00:00"))` and takes its
`strftime("%Y-%m-%d")`.  `replaceZ` is `str.replace("Z", "+00:00")`;
`parseIsoDate` models CPython's (3.11+) `fromisoformat` on the colon-separated
ISO-8601 forms this system reads and writes — a full `YYYY-MM-DD` date,
optionally followed by a single separator character and a time
`HH[:MM[:SS[.ffffff]]]` with an optional `±HH:MM[:SS]` offset — returning the
calendar date whose `strftime("%Y-%m-%d")` the loop then uses.
A `ValueError` (parse failure) is modelled as `none`. -/

def replaceZ : List Char → List Char
  | [] => []
  | 'Z' :: rest => '+' :: '0' :: '0' :: ':' :: '0' :: '0' :: replaceZ rest
  | c :: rest => c :: replaceZ rest

def isDigitCh (c : Char) : Bool := 48 ≤ c.toNat && c.toNat ≤ 57

def digitVal (c : Char) : Nat := c.toNat - 48

def fracDigits : List Char → Option (List Char)
  | [] => some []
  | c :: rest => if isDigitCh c then fracDigits rest else some (c :: rest)

def offsetPart : List Char → Bool
  | sign :: o1 :: o2 :: ':' :: o3 :: o4 :: rest =>
    (sign == '+' || sign == '-') &&
    isDigitCh o1 && isDigitCh o2 && isDigitCh o3 && isDigitCh o4 &&
    decide (digitVal o1 * 10 + digitVal o2 ≤ 23) &&
    decide (digitVal o3 * 10 + digitVal o4 ≤ 59) &&
    (match rest with
     | [] => true
     | ':' :: s1 :: s2 :: [] =>
       isDigitCh s1 && isDigitCh s2 && decide (digitVal s1 * 10 + digitVal s2 ≤ 59)
     | _ => false)
  | _ => false

def afterSeconds : List Char → Bool
  | [] => true
  | '.' :: rest =>
    (match fracDigits rest with
     | some tail =>
       decide (rest.length - tail.length ≥ 1) && decide (rest.length - tail.length ≤ 6) &&
       (tail.isEmpty || offsetPart tail)
     | none => false)
  | ',' :: rest =>
    (match fracDigits rest with
     | some tail =>
       decide (rest.length - tail.length ≥ 1) && decide (rest.length - tail.length ≤ 6) &&
       (tail.isEmpty || offsetPart tail)
     | none => false)
  | cs => offsetPart cs

def afterMinutes : List Char → Bool
  | [] => true
  | ':' :: s1 :: s2 :: rest =>
    isDigitCh s1 && isDigitCh s2 && decide (digitVal s1 * 10 + digitVal s2 ≤ 59) &&
    afterSeconds rest
  | cs => offsetPart cs

def validTime : List Char → Bool
  | h1 :: h2 :: rest =>
    isDigitCh h1 && isDigitCh h2 && decide (digitVal h1 * 10 + digitVal h2 ≤ 23) &&
    (match rest with
     | [] => true
     | ':' :: m1 :: m2 :: rest2 =>
       isDigitCh m1 && isDigitCh m2 && decide (digitVal m1 * 10 + digitVal m2 ≤ 59) &&
       afterMinutes rest2
     | cs => offsetPart cs)
  | _ => false

def parseIsoDate : List Char → Option Date
  | y1 :: y2 :: y3 :: y4 :: '-' :: m1 :: m2 :: '-' :: d1 :: d2 :: rest =>
    if isDigitCh y1 && isDigitCh y2 && isDigitCh y3 && isDigitCh y4 &&
       isDigitCh m1 && isDigitCh m2 && isDigitCh d1 && isDigitCh d2 then
      let y := digitVal y1 * 1000 + digitVal y2 * 100 + digitVal y3 * 10 + digitVal y4
      let m := digitVal m1 * 10 + digitVal m2
      let d := digitVal d1 * 10 + digitVal d2
      if 1 ≤ y ∧ 1 ≤ m ∧ m ≤ 12 ∧ 1 ≤ d ∧ d ≤ daysInMonth y m then
        match rest with
        | [] => some ⟨y, m, d⟩
        | _ :: timecs => if validTime timecs then some ⟨y, m, d⟩ else none
      else none
    else none
  | _ => none

def parseTsDate (ts : String) : Option Date :=
  parseIsoDate (replaceZ ts.data)

/-! ## Brew-program classification and aggregation queries (`history.py`) -/

/-- `HistoryManager._is_brew_program` (`history.py` lines 311-341). -/
def is_brew_program (program_key : String) : Bool :=
  if program_key = "" then false
  else
    let kl := lowerStr program_key
    if containsSub kl "cleaningmodes" then false
    else if containsSub kl "beverage" then true
    else if ["rinsing", "descaling", "cleaning"].any (fun kw => containsSub kl kw) then false
    else true

/-- `_is_brew_program` applied to an arbitrary decoded JSON value, as the
aggregation loops do with `data.get("program", "Unknown")`.  A falsy value
returns `False` at the `if not program_key` check; a truthy non-string makes
`program_key.lower()` raise `AttributeError` (modelled as `none`), which
neither aggregation loop catches. -/
def brewCheck (v : Json) : Option Bool :=
  match v with
  | .str s => some (is_brew_program s)
  | v => if v.truthy then none else some false

/-- One iteration of the row loop of `get_daily_usage` (lines 284-300):
`none` = uncaught exception (`data.get` on a non-dict, or
`_is_brew_program` on a truthy non-string program value);
`some none` = row skipped (bad JSON, non-brew program, unparsable
timestamp, or date outside the window);
`some (some k)` = row increments the count of window key `k`. -/
def rowDateKey (wk : List String) (r : Row) : Option (Option String) :=
  match r.data with
  | none => some none
  | some d =>
    match d with
    | .obj kvs =>
      let programKey := (Json.lookup kvs "program").getD (.str "Unknown")
      match brewCheck programKey with
      | none => none
      | some false => some none
      | some true =>
        match parseTsDate r.timestamp with
        | none => some none
        | some dt =>
          let dateKey := fmtDate dt
          if dateKey ∈ wk then some (some dateKey) else some none
    | _ => none

/-- The row loop of `get_daily_usage`, accumulating `daily_counts`. -/
def dailyLoop (wk : List String) : List Row → (String → Nat) → Option (String → Nat)
  | [], acc => some acc
  | r :: rs, acc =>
    match rowDateKey wk r with
    | none => none
    | some none => dailyLoop wk rs acc
    | some (some k) => dailyLoop wk rs (fun x => if x = k then acc x + 1 else acc x)

/-- `cutoff_str` of `get_daily_usage`:
`(today_midnight - timedelta(days=days)).isoformat()`. -/
def cutoffOf (today : Date) (days : Nat) : String :=
  fmtDate (subDays today days) ++ "T00:00:00+00:00"

/-- `HistoryManager.get_daily_usage` (`history.py` lines 249-309).
`today` is `datetime.now(timezone.utc)` truncated to midnight.  The result
is the insertion-ordered dict `{date_key: count}` over `date_keys_in_range`,
or `none` if the loop raises an uncaught exception. -/
def getDailyUsage (store : List Row) (today : Date) (days : Nat) :
    Option (List (String × Nat)) :=
  (dailyLoop (windowKeys today days)
      (sortBy tsAscLe (store.filter (fun r =>
        r.type == "program_started" && strLe (cutoffOf today days) r.timestamp)))
      (fun _ => 0)).map
    (fun acc => (windowKeys today days).map (fun k => (k, acc k)))

/-- One iteration of the row loop of `get_program_counts` (lines 360-370):
same exception model as `rowDateKey`; `some (some p)` = row increments the
count of brew program `p`. -/
def rowProgram (r : Row) : Option (Option String) :=
  match r.data with
  | none => some none
  | some d =>
    match d with
    | .obj kvs =>
      let programKey := (Json.lookup kvs "program").getD (.str "Unknown")
      match brewCheck programKey with
      | none => none
      | some false => some none
      | some true =>
        match programKey with
        | .str s => some (some s)
        | _ => some none
    | _ => none

/-- `counts[program_key] = counts.get(program_key, 0) + 1` on an
insertion-ordered dict. -/
def bumpKey : List (String × Nat) → String → List (String × Nat)
  | [], k => [(k, 1)]
  | (a, n) :: rest, k =>
    if a = k then (a, n + 1) :: rest else (a, n) :: bumpKey rest k

def countsLoop : List Row → List (String × Nat) → Option (List (String × Nat))
  | [], acc => some acc
  | r :: rs, acc =>
    match rowProgram r with
    | none => none
    | some none => countsLoop rs acc
    | some (some p) => countsLoop rs (bumpKey acc p)

/-- `HistoryManager.get_program_counts` (`history.py` lines 343-374). -/
def getProgramCounts (store : List Row) : Option (List (String × Nat)) :=
  countsLoop (store.filter (fun r => r.type == "program_started")) []

/-- A stored row that increments window key `k` in `get_daily_usage`:
it passes the SQL filter and its loop step yields `k`. -/
def dailyQualifies (today : Date) (days : Nat) (k : String) (r : Row) : Bool :=
  r.type == "program_started" && strLe (cutoffOf today days) r.timestamp &&
  (rowDateKey (windowKeys today days) r == some (some k))

/-- A row whose decoded payload carries a string program identifier that
contains the cleaning-mode marker (case-insensitively). -/
def hasCleaningMarker (r : Row) : Bool :=
  match r.data with
  | some (.obj kvs) =>
    (match Json.lookup kvs "program" with
     | some (.str s) => containsSub (lowerStr s) "cleaningmodes"
     | _ => false)
  | _ => false

/-! ## Token lifecycle (`auth.py`, `client.py`)

`datetime` instants are modelled as integers.  `is_expired` is
`datetime.now(timezone.utc) >= self.expires_at`.  Network refresh outcomes
and the token file are passed in explicitly: `refreshOutcome = some t` means
`refresh_access_token` would return `t`, `none` means it would raise;
`fileTokens` is what `TokenBundle.from_file` would load. -/

structure TokenBundle where
  access_token : String
  refresh_token : String
  expires_at : Int
  scope : String
  token_type : String

def TokenBundle.is_expired (t : TokenBundle) (now : Int) : Bool :=
  t.expires_at ≤ now

/-- `HomeConnectClient._ensure_token` (`client.py` lines 37-89), single
client: returns the resulting `self.tokens` and the number of network
refresh calls made, or an error where the Python code raises
`RuntimeError`.  The double-checked branch inside the lock re-reads
`is_expired` at the same instant, so in this sequential model it is the
same test repeated. -/
def ensureToken (tokens : TokenBundle) (now : Int) (fileTokens : Option TokenBundle)
    (refreshOutcome : Option TokenBundle) : Except Unit (TokenBundle × Nat) :=
  if tokens.refresh_token = "" then .ok (tokens, 0)
  else if !tokens.is_expired now then .ok (tokens, 0)
  else
    -- with _token_refresh_lock:
    if !tokens.is_expired now then
      match fileTokens with
      | some t => .ok (t, 0)
      | none => .error ()
    else
      match refreshOutcome with
      | some nt => .ok (nt, 1)
      | none =>
        match fileTokens with
        | some rt => if !rt.is_expired now then .ok (rt, 1) else .error ()
        | none => .error ()

/-- `HomeConnectClient.get_access_token` (`client.py` lines 200-203). -/
def getAccessToken (tokens : TokenBundle) (now : Int) (fileTokens : Option TokenBundle)
    (refreshOutcome : Option TokenBundle) : Except Unit String :=
  match ensureToken tokens now fileTokens refreshOutcome with
  | .ok (t, _) => .ok t.access_token
  | .error e => .error e

/-! ## REST request flow with 401 retry (`client.py`, `_request`) -/

/-- `requests.Response.ok`: status code below 400. -/
def okStatus (code : Nat) : Bool := code < 400

structure ReqEnv where
  tokens : TokenBundle
  now : Int
  fileTokens : Option TokenBundle
  refreshOutcome : Option TokenBundle
  resp1 : Nat
  resp2 : Nat

structure ReqOutcome where
  result : Except Unit Nat
  forcedRefreshes : Nat
  sends : Nat

/-- `HomeConnectClient._request` (`client.py` lines 99-193) for a fresh
request (`retry_on_401 = True`, `_retry_attempted = False`): `resp1` is the
status of the first `session.request`, `resp2` of the retry when one
happens.  `result = .ok code` models returning response JSON;
`.error ()` models a raised exception.  `forcedRefreshes` counts the
forced `refresh_access_token` calls of the 401 handler; `sends` counts
`session.request` calls. -/
def requestFlow (env : ReqEnv) : ReqOutcome :=
  match ensureToken env.tokens env.now env.fileTokens env.refreshOutcome with
  | .error _ => ⟨.error (), 0, 0⟩
  | .ok (t1, _) =>
    if env.resp1 = 401 then
      -- 401 handler: force refresh (when a refresh token exists), then retry
      if t1.refresh_token ≠ "" then
        match env.refreshOutcome with
        | none => ⟨.error (), 1, 1⟩          -- refresh raised; original 401 is not ok
        | some nt =>
          match ensureToken nt env.now env.fileTokens env.refreshOutcome with
          | .error _ => ⟨.error (), 1, 1⟩    -- headers raised; caught, original 401
          | .ok _ =>
            if okStatus env.resp2 then ⟨.ok env.resp2, 1, 2⟩ else ⟨.error (), 1, 2⟩
      else
        match ensureToken t1 env.now env.fileTokens env.refreshOutcome with
        | .error _ => ⟨.error (), 0, 1⟩
        | .ok _ =>
          if okStatus env.resp2 then ⟨.ok env.resp2, 0, 2⟩ else ⟨.error (), 0, 2⟩
    else
      if okStatus env.resp1 then ⟨.ok env.resp1, 0, 1⟩ else ⟨.error (), 0, 1⟩

/-! ## 429 backoff of the stream worker
(`event_stream_manager.py`, `_event_stream_worker`, lines 279-352) -/

inductive ConnOutcome where
  | ok : ConnOutcome
  | rate429 : ConnOutcome
  | connFail : ConnOutcome

structure BackoffSt where
  backoff : Nat
  consec : Nat
deriving DecidableEq

/-- `backoff_seconds = 60; consecutive_429_errors = 0` at worker start. -/
def initBackoff : BackoffSt := ⟨60, 0⟩

/-- One connection attempt: the new backoff state and the sleeps performed.
On success the backoff resets if there were consecutive 429s; on a 429 the
worker sleeps `backoff_seconds` and then doubles it, capped at 300; other
connection errors sleep a fixed 10 seconds and leave the backoff alone. -/
def stepConn (s : BackoffSt) : ConnOutcome → BackoffSt × List Nat
  | .ok => (if s.consec > 0 then ⟨60, 0⟩ else s, [])
  | .rate429 => (⟨min (s.backoff * 2) 300, s.consec + 1⟩, [s.backoff])
  | .connFail => (s, [10])

def runConn (s : BackoffSt) : List ConnOutcome → BackoffSt × List Nat
  | [] => (s, [])
  | o :: os =>
    let r1 := stepConn s o
    let r2 := runConn r1.1 os
    (r2.1, r1.2 ++ r2.2)

/-! ## Client broadcast registry
(`event_stream_manager.py`, `broadcast_event`, lines 138-176)

A connected SSE client handler; `failing = true` means
`DashboardHandler._send_sse_event` would raise for it (connection error or
any other exception — both put the client on the `disconnected_clients`
list).  `_send_sse_event` serializes the payload with `json.dumps` before
writing, so one serialization is attempted per client reached. -/

structure BClient where
  cid : Nat
  failing : Bool
deriving DecidableEq

/-- The fan-out loop: clients attempted (in order, one `json.dumps` each),
deliveries made, and the `disconnected_clients` list. -/
def fanOut (ty : String) (pl : Json) :
    List BClient → List Nat × List (Nat × String × Json) × List BClient
  | [] => ([], [], [])
  | c :: cs =>
    let r := fanOut ty pl cs
    (c.cid :: r.1,
     (if c.failing then r.2.1 else (c.cid, ty, pl) :: r.2.1),
     (if c.failing then c :: r.2.2 else r.2.2))

/-- `for client in disconnected_clients: if client in self._clients:
self._clients.remove(client)` — `list.remove` drops the first occurrence. -/
def removeClients (cur : List BClient) (dis : List BClient) : List BClient :=
  dis.foldl (fun acc c => if c ∈ acc then acc.erase c else acc) cur

/-- `EventStreamManager.broadcast_event`: returns the registry after the
call, the cids for which a serialization+write was attempted, and the
deliveries made.  With no clients it returns immediately. -/
def broadcastEvent (clients : List BClient) (ty : String) (pl : Json) :
    List BClient × List Nat × List (Nat × String × Json) :=
  if clients.isEmpty then (clients, [], [])
  else
    let r := fanOut ty pl clients
    (removeClients clients r.2.2, r.1, r.2.1)

/-! ## Heartbeat monitor
(`event_stream_manager.py`, `_check_heartbeat` lines 215-226 and
`_heartbeat_monitor` lines 228-270)

Times are integer `time.time()` values; `last = 0` is the "no heartbeat
yet" state. -/

structure StreamStatusEvt where
  connected : Bool
  lastHeartbeat : Option Int
  timestamp : Int
deriving DecidableEq

def checkHeartbeat (last now timeout : Int) : Bool :=
  if last = 0 then true else now - last < timeout

/-- One tick of the monitor loop body (after its 30s sleep): given whether
the stream worker is running, the current `_force_reconnect` flag, the
heartbeat state and the clock, returns the new flag, the new
`_last_heartbeat`, and the `STREAM_STATUS` events handed to
`broadcast_event`. -/
def heartbeatTick (running : Bool) (force : Bool) (last timeout now : Int) :
    Bool × Int × List (String × StreamStatusEvt) :=
  if !running then (force, last, [])
  else
    let connected := checkHeartbeat last now timeout
    let evt := ("STREAM_STATUS",
      StreamStatusEvt.mk connected (if last > 0 then some last else none) now)
    if !connected && last > 0 then (true, 0, [evt])
    else (force, last, [evt])

/-! ## Order and sorting lemmas -/

theorem charEqOfToNat {a b : Char} (h : a.toNat = b.toNat) : a = b :=
  Char.ext (UInt32.ext h)

theorem lexLt_asymm : ∀ a b : List Char, lexLt a b = true → lexLt b a = false := by
  intro a
  induction a with
  | nil => intro b _; cases b <;> simp [lexLt]
  | cons x xs ih =>
    intro b hab
    cases b with
    | nil => simp [lexLt] at hab
    | cons y ys =>
      rcases Nat.lt_trichotomy x.toNat y.toNat with h | h | h
      · simp [lexLt, h, Nat.lt_asymm h]
      · have h1 : ¬ x.toNat < y.toNat := by omega
        have h2 : ¬ y.toNat < x.toNat := by omega
        simp only [lexLt, h1, h2, if_false] at hab ⊢
        exact ih ys hab
      · simp [lexLt, h, Nat.lt_asymm h] at hab

theorem lexLt_total : ∀ a b : List Char, lexLt a b = false → lexLt b a = false → a = b := by
  intro a
  induction a with
  | nil => intro b h _; cases b <;> simp_all [lexLt]
  | cons x xs ih =>
    intro b hab hba
    cases b with
    | nil => simp [lexLt] at hba
    | cons y ys =>
      rcases Nat.lt_trichotomy x.toNat y.toNat with h | h | h
      · simp [lexLt, h] at hab
      · have h1 : ¬ x.toNat < y.toNat := by omega
        have h2 : ¬ y.toNat < x.toNat := by omega
        simp only [lexLt, h1, h2, if_false] at hab hba
        rw [charEqOfToNat h, ih ys hab hba]
      · simp [lexLt, h] at hba

theorem lexLt_trans :
    ∀ a b c : List Char, lexLt a b = true → lexLt b c = true → lexLt a c = true := by
  intro a
  induction a with
  | nil =>
    intro b c hab hbc
    cases b with
    | nil => simp [lexLt] at hab
    | cons y ys =>
      cases c with
      | nil => simp [lexLt] at hbc
      | cons z zs => simp [lexLt]
  | cons x xs ih =>
    intro b c hab hbc
    cases b with
    | nil => simp [lexLt] at hab
    | cons y ys =>
      cases c with
      | nil => simp [lexLt] at hbc
      | cons z zs =>
        rcases Nat.lt_trichotomy x.toNat y.toNat with hxy | hxy | hxy
        · rcases Nat.lt_trichotomy y.toNat z.toNat with hyz | hyz | hyz
          · have : x.toNat < z.toNat := by omega
            simp [lexLt, this]
          · have : x.toNat < z.toNat := by omega
            simp [lexLt, this]
          · simp [lexLt, hyz, Nat.lt_asymm hyz] at hbc
        · rcases Nat.lt_trichotomy y.toNat z.toNat with hyz | hyz | hyz
          · have : x.toNat < z.toNat := by omega
            simp [lexLt, this]
          · have h1 : ¬ x.toNat < z.toNat := by omega
            have h2 : ¬ z.toNat < x.toNat := by omega
            have h3 : ¬ x.toNat < y.toNat := by omega
            have h4 : ¬ y.toNat < x.toNat := by omega
            have h5 : ¬ y.toNat < z.toNat := by omega
            have h6 : ¬ z.toNat < y.toNat := by omega
            simp only [lexLt, h1, h2, if_false]
            simp only [lexLt, h3, h4, if_false] at hab
            simp only [lexLt, h5, h6, if_false] at hbc
            exact ih ys zs hab hbc
          · simp [lexLt, hyz, Nat.lt_asymm hyz] at hbc
        · simp [lexLt, hxy, Nat.lt_asymm hxy] at hab

theorem strLe_total : ∀ a b : String, strLe a b = true ∨ strLe b a = true := by
  intro a b
  by_cases h : lexLt a.data b.data = true
  · left; simp [strLe, strLt, h]
  · by_cases h2 : lexLt b.data a.data = true
    · right; simp [strLe, strLt, h2]
    · left
      have hd : a.data = b.data :=
        lexLt_total a.data b.data (by simpa using h) (by simpa using h2)
      have hab : a = b := String.ext hd
      simp [strLe, strLt, hab]

theorem strLe_trans :
    ∀ a b c : String, strLe a b = true → strLe b c = true → strLe a c = true := by
  intro a b c hab hbc
  simp only [strLe, strLt, Bool.or_eq_true, beq_iff_eq] at hab hbc ⊢
  rcases hab with hab | hab
  · rcases hbc with hbc | hbc
    · exact Or.inl (lexLt_trans _ _ _ hab hbc)
    · subst hbc; exact Or.inl hab
  · subst hab; exact hbc

theorem strLt_not_le {a b : String} (h : strLt a b = true) : strLe b a = false := by
  simp only [strLe, strLt, Bool.or_eq_false_iff, beq_eq_false_iff_ne]
  constructor
  · exact lexLt_asymm _ _ h
  · intro hba
    subst hba
    have h2 := lexLt_asymm _ _ h
    exact absurd h2 (by simp [strLt] at h; simp [h])

theorem insertSorted_perm {α : Type} (le : α → α → Bool) (x : α) :
    ∀ l : List α, List.Perm (insertSorted le x l) (x :: l) := by
  intro l
  induction l with
  | nil => simp [insertSorted]
  | cons y ys ih =>
    simp only [insertSorted]
    split
    · exact List.Perm.refl _
    · exact ((ih.cons y).trans (List.Perm.swap x y ys))

theorem sortBy_perm {α : Type} (le : α → α → Bool) :
    ∀ l : List α, List.Perm (sortBy le l) l := by
  intro l
  induction l with
  | nil => exact List.Perm.refl _
  | cons x xs ih => exact (insertSorted_perm le x (sortBy le xs)).trans (ih.cons x)

theorem mem_sortBy {α : Type} {le : α → α → Bool} {x : α} {l : List α} :
    x ∈ sortBy le l ↔ x ∈ l :=
  (sortBy_perm le l).mem_iff

theorem insertSorted_pairwise {α : Type} {le : α → α → Bool}
    (htot : ∀ a b, le a b = true ∨ le b a = true)
    (htrans : ∀ a b c, le a b = true → le b c = true → le a c = true)
    (x : α) :
    ∀ l : List α, l.Pairwise (fun a b => le a b = true) →
      (insertSorted le x l).Pairwise (fun a b => le a b = true) := by
  intro l
  induction l with
  | nil => intro _; simp [insertSorted]
  | cons y ys ih =>
    intro hp
    rcases List.pairwise_cons.mp hp with ⟨hy, hys⟩
    simp only [insertSorted]
    split
    · rename_i hxy
      refine List.pairwise_cons.mpr ⟨?_, hp⟩
      intro b hb
      rcases List.mem_cons.mp hb with hb | hb
      · subst hb; exact hxy
      · exact htrans x y b hxy (hy b hb)
    · rename_i hxy
      have hyx : le y x = true := by
        rcases htot x y with h | h
        · exact absurd h hxy
        · exact h
      refine List.pairwise_cons.mpr ⟨?_, ih hys⟩
      intro b hb
      have hb2 := List.mem_cons.mp ((insertSorted_perm le x ys).mem_iff.mp hb)
      rcases hb2 with hb2 | hb2
      · subst hb2; exact hyx
      · exact hy b hb2

theorem sortBy_pairwise {α : Type} {le : α → α → Bool}
    (htot : ∀ a b, le a b = true ∨ le b a = true)
    (htrans : ∀ a b c, le a b = true → le b c = true → le a c = true) :
    ∀ l : List α, (sortBy le l).Pairwise (fun a b => le a b = true) := by
  intro l
  induction l with
  | nil => simp [sortBy]
  | cons x xs ih => exact insertSorted_pairwise htot htrans x _ ih

/-! ## Backoff lemmas and claim C5 -/

theorem runConn_429s : ∀ (K j c : Nat),
    (runConn ⟨min (60 * 2 ^ j) 300, c⟩ (List.replicate K ConnOutcome.rate429)).2
      = (List.range K).map (fun i => min (60 * 2 ^ (j + i)) 300) := by
  intro K
  induction K with
  | zero => intro j c; simp [runConn]
  | succ K ih =>
    intro j c
    have harith : min (min (60 * 2 ^ j) 300 * 2) 300 = min (60 * 2 ^ (j + 1)) 300 := by
      rw [pow_succ]
      omega
    have hmap : ∀ i : Nat, j + 1 + i = j + (i + 1) := by omega
    rw [List.replicate_succ]
    simp only [runConn, stepConn]
    rw [harith, ih (j + 1) (c + 1), List.range_succ_eq_map]
    simp only [List.map_cons, List.map_map, Nat.add_zero, List.singleton_append]
    congr 1
    apply List.map_congr_left
    intro i _
    simp only [Function.comp_apply]
    rw [hmap i]

theorem backoffInv : ∀ (outs : List ConnOutcome) (s : BackoffSt),
    (s.consec = 0 → s.backoff = 60) →
    ((runConn s outs).1.consec = 0 → (runConn s outs).1.backoff = 60) := by
  intro outs
  induction outs with
  | nil => intro s h; simpa [runConn] using h
  | cons o os ih =>
    intro s h
    simp only [runConn]
    apply ih
    cases o with
    | ok =>
      simp only [stepConn]
      split
      · simp
      · rename_i hc
        intro h0
        exact h h0
    | rate429 => simp [stepConn]
    | connFail => simpa [stepConn] using h

/-- C5: after K consecutive 429 responses the stream worker's K-th backoff
sleep is min (60 * 2 ^ (K-1)) 300 seconds — so three consecutive 429s sleep
exactly 60, 120 and 240 seconds — and after any history of connection
attempts, a successful connection resets the backoff so that the next 429
sleeps 60 seconds again. -/
theorem c5_backoff_schedule :
    (∀ K : Nat, (runConn initBackoff (List.replicate K ConnOutcome.rate429)).2
        = (List.range K).map (fun i => min (60 * 2 ^ i) 300)) ∧
    (runConn initBackoff (List.replicate 3 ConnOutcome.rate429)).2 = [60, 120, 240] ∧
    (∀ outs : List ConnOutcome,
      (stepConn (stepConn (runConn initBackoff outs).1 ConnOutcome.ok).1
        ConnOutcome.rate429).2 = [60]) := by
  refine ⟨?_, ?_, ?_⟩
  · intro K
    have h := runConn_429s K 0 0
    simpa [initBackoff] using h
  · decide
  · intro outs
    have hinv := backoffInv outs initBackoff (by intro _; rfl)
    set t := (runConn initBackoff outs).1 with ht
    have hb : (if 0 < t.consec then (⟨60, 0⟩ : BackoffSt) else t).backoff = 60 := by
      split
      · rfl
      · rename_i hc
        exact hinv (by omega)
    simp [stepConn, hb]

/-! ## Claim C8: heartbeat-triggered reconnect -/

/-- C8: if the stream worker is running, at least one heartbeat was observed
since the last reset, and no heartbeat arrived for longer than
heartbeat_timeout, then the monitor tick sets the force-reconnect flag,
broadcasts a STREAM_STATUS event with stream_connected = false (carrying the
stale heartbeat time and the current time), and resets the heartbeat state
to the none-yet value 0. -/
theorem c8_heartbeat_timeout (force : Bool) (last timeout now : Int)
    (hlast : 0 < last) (hstale : timeout < now - last) :
    heartbeatTick true force last timeout now
      = (true, 0, [("STREAM_STATUS", ⟨false, some last, now⟩)]) := by
  have h0 : ¬ last = 0 := by omega
  have h1 : ¬ (now - last < timeout) := by omega
  simp [heartbeatTick, checkHeartbeat, h0, h1, hlast]

theorem c8_heartbeat_timeout_witness :
    (0 : Int) < 100 ∧ (180 : Int) < 400 - 100 ∧
    heartbeatTick true false 100 180 400
      = (true, 0, [("STREAM_STATUS", ⟨false, some 100, 400⟩)]) :=
  ⟨by decide, by decide, c8_heartbeat_timeout false 100 180 400 (by decide) (by decide)⟩

/-! ## Claim C9: empty refresh token short-circuits _ensure_token -/

/-- C9: when the loaded token bundle has an empty refresh_token,
_ensure_token returns immediately without attempting any refresh even
though the access token is expired, and get_access_token succeeds,
returning the expired access token. -/
theorem c9_empty_refresh_token (tokens : TokenBundle) (now : Int)
    (fileTokens refreshOutcome : Option TokenBundle)
    (hrt : tokens.refresh_token = "")
    (hexp : tokens.is_expired now = true) :
    ensureToken tokens now fileTokens refreshOutcome = .ok (tokens, 0) ∧
    getAccessToken tokens now fileTokens refreshOutcome = .ok tokens.access_token := by
  constructor
  · simp [ensureToken, hrt]
  · simp [getAccessToken, ensureToken, hrt]

theorem c9_empty_refresh_token_witness :
    (TokenBundle.mk "stale-access" "" 0 "" "Bearer").refresh_token = "" ∧
    (TokenBundle.mk "stale-access" "" 0 "" "Bearer").is_expired 10 = true ∧
    getAccessToken (TokenBundle.mk "stale-access" "" 0 "" "Bearer") 10 none none
      = .ok "stale-access" :=
  ⟨rfl, by decide,
    (c9_empty_refresh_token (TokenBundle.mk "stale-access" "" 0 "" "Bearer") 10 none none
      rfl (by decide)).2⟩


/-! ## Claim C7: at most one forced refresh and one retry per request -/

theorem ensureToken_ok_of_refresh (tokens : TokenBundle) (now : Int)
    (fileTokens : Option TokenBundle) (nt : TokenBundle) :
    ∃ t k, ensureToken tokens now fileTokens (some nt) = .ok (t, k) := by
  unfold ensureToken
  repeat' split
  all_goals first | exact ⟨_, _, rfl⟩ | simp_all

/-- C7: _request performs at most one forced token refresh and at most two
HTTP sends per request; on a 401 first response, a successful forced
refresh is followed by exactly one retry (two sends in total), and a second
401 on the retry — or a failure of the attempted forced refresh itself —
makes the call surface as a raised failure instead of being retried
again. -/
theorem c7_single_retry_on_401 (env : ReqEnv) :
    (requestFlow env).forcedRefreshes ≤ 1 ∧
    (requestFlow env).sends ≤ 2 ∧
    (env.resp1 = 401 → env.resp2 = 401 → (requestFlow env).result = .error ()) ∧
    (env.resp1 = 401 → env.refreshOutcome = none →
      (requestFlow env).forcedRefreshes = 1 → (requestFlow env).result = .error ()) ∧
    (∀ nt, env.resp1 = 401 → env.refreshOutcome = some nt →
      (requestFlow env).sends = 2) := by
  refine ⟨?_, ?_, ?_, ?_, ?_⟩
  · unfold requestFlow
    repeat' split
    all_goals simp
  · unfold requestFlow
    repeat' split
    all_goals simp
  · intro h1 h2
    unfold requestFlow
    repeat' split
    all_goals simp_all [okStatus]
  · intro h1 h2
    unfold requestFlow
    repeat' split
    all_goals simp_all [okStatus]
  · intro nt h1 h2
    unfold requestFlow
    rw [h2]
    obtain ⟨t, k, hok⟩ := ensureToken_ok_of_refresh env.tokens env.now env.fileTokens nt
    rw [hok]
    simp only [h1, if_true]
    split
    · obtain ⟨t2, k2, hok2⟩ := ensureToken_ok_of_refresh nt env.now env.fileTokens nt
      simp only [hok2]
      split <;> rfl
    · obtain ⟨t2, k2, hok2⟩ := ensureToken_ok_of_refresh t env.now env.fileTokens nt
      simp only [hok2]
      split <;> rfl

theorem c7_single_retry_on_401_witness :
    (ReqEnv.mk (TokenBundle.mk "a" "r" 0 "" "Bearer") 10 none
        (some (TokenBundle.mk "a2" "r" 100 "" "Bearer")) 401 401).resp1 = 401 ∧
    (ReqEnv.mk (TokenBundle.mk "a" "r" 0 "" "Bearer") 10 none
        (some (TokenBundle.mk "a2" "r" 100 "" "Bearer")) 401 401).resp2 = 401 ∧
    (requestFlow (ReqEnv.mk (TokenBundle.mk "a" "r" 0 "" "Bearer") 10 none
        (some (TokenBundle.mk "a2" "r" 100 "" "Bearer")) 401 401)).result = .error () :=
  ⟨rfl, rfl,
    (c7_single_retry_on_401 (ReqEnv.mk (TokenBundle.mk "a" "r" 0 "" "Bearer") 10 none
        (some (TokenBundle.mk "a2" "r" 100 "" "Bearer")) 401 401)).2.2.1 rfl rfl⟩

/-! ## Broadcast lemmas and claim C6 -/

theorem fanOut_spec (ty : String) (pl : Json) : ∀ cs : List BClient,
    fanOut ty pl cs =
      (cs.map (fun c => c.cid),
       (cs.filter (fun c => !c.failing)).map (fun c => (c.cid, ty, pl)),
       cs.filter (fun c => c.failing)) := by
  intro cs
  induction cs with
  | nil => rfl
  | cons c cs ih =>
    simp only [fanOut, ih, List.map_cons, List.filter_cons]
    by_cases h : c.failing <;> simp [h]

theorem removeClients_filter (dis : List BClient) : ∀ cur : List BClient, cur.Nodup →
    removeClients cur dis = cur.filter (fun c => decide (c ∉ dis)) := by
  induction dis with
  | nil =>
    intro cur _
    simp [removeClients]
  | cons d ds ih =>
    intro cur hnd
    have hstep : (if d ∈ cur then cur.erase d else cur)
        = cur.filter (fun c => c != d) := by
      split
      · exact hnd.erase_eq_filter d
      · rename_i hmem
        refine (List.filter_eq_self.mpr ?_).symm
        intro a ha
        simp only [bne_iff_ne, ne_eq, decide_eq_true_eq]
        intro had
        exact hmem (had ▸ ha)
    have hcur2 : (cur.filter (fun c => c != d)).Nodup := hnd.filter _
    calc removeClients cur (d :: ds)
        = removeClients (if d ∈ cur then cur.erase d else cur) ds := rfl
      _ = (cur.filter (fun c => c != d)).filter (fun c => decide (c ∉ ds)) := by
          rw [hstep, ih _ hcur2]
      _ = cur.filter (fun c => decide (c ∉ d :: ds)) := by
          rw [List.filter_filter]
          apply List.filter_congr
          intro a _
          rcases Decidable.em (a = d) with h | h <;> simp [h, List.mem_cons]
  
/-- C6: broadcast_event with no registered clients returns at once with no
serialization or write attempted and the registry unchanged; with clients
registered, a serialization and write is attempted for every registered
client in order, every client whose write raises still lets every other
(non-failing) client receive the same event within the same call, and
exactly the failing clients are removed from the registry after the
fan-out loop completes. -/
theorem c6_broadcast_isolation (clients : List BClient) (ty : String) (pl : Json)
    (hnodup : clients.Nodup) :
    broadcastEvent [] ty pl = ([], [], []) ∧
    (broadcastEvent clients ty pl).2.1 = clients.map (fun c => c.cid) ∧
    (broadcastEvent clients ty pl).2.2
      = (clients.filter (fun c => !c.failing)).map (fun c => (c.cid, ty, pl)) ∧
    (broadcastEvent clients ty pl).1 = clients.filter (fun c => !c.failing) := by
  refine ⟨rfl, ?_, ?_, ?_⟩
  · rcases clients with _ | ⟨c, cs⟩
    · rfl
    · simp only [broadcastEvent, List.isEmpty_cons, fanOut_spec]
      rfl
  · rcases clients with _ | ⟨c, cs⟩
    · rfl
    · simp only [broadcastEvent, List.isEmpty_cons, fanOut_spec]
      rfl
  · rcases hcl : clients with _ | ⟨c, cs⟩
    · rfl
    · rw [← hcl]
      have hne : clients.isEmpty = false := by rw [hcl]; rfl
      simp only [broadcastEvent, hne, fanOut_spec, Bool.false_eq_true, if_false]
      rw [removeClients_filter _ _ hnodup]
      apply List.filter_congr
      intro a ha
      by_cases h : a.failing
      · simp [List.mem_filter, ha, h]
      · simp [List.mem_filter, h]

theorem c6_broadcast_isolation_witness :
    ([BClient.mk 1 false, BClient.mk 2 true, BClient.mk 3 false] : List BClient).Nodup ∧
    (broadcastEvent [BClient.mk 1 false, BClient.mk 2 true, BClient.mk 3 false]
        "STATUS" Json.null).2.2
      = [(1, "STATUS", Json.null), (3, "STATUS", Json.null)] ∧
    (broadcastEvent [BClient.mk 1 false, BClient.mk 2 true, BClient.mk 3 false]
        "STATUS" Json.null).1
      = [BClient.mk 1 false, BClient.mk 3 false] :=
  ⟨by decide,
    by
      have h := (c6_broadcast_isolation
        [BClient.mk 1 false, BClient.mk 2 true, BClient.mk 3 false]
        "STATUS" Json.null (by decide)).2.2.1
      rw [h]; rfl,
    by
      have h := (c6_broadcast_isolation
        [BClient.mk 1 false, BClient.mk 2 true, BClient.mk 3 false]
        "STATUS" Json.null (by decide)).2.2.2
      rw [h]; rfl⟩

/-! ## Stream worker lemmas and claim C1 -/

theorem loopItems_mem {items : List Json} (hobj : ∀ j ∈ items, j.isObj = true)
    {item : Json} (hitem : item ∈ items)
    {push : String × Json} (hpush : programItemPush item = some push) :
    push ∈ loopItems items := by
  induction items with
  | nil => cases hitem
  | cons i rest ih =>
    have hobji : i.isObj = true := hobj i (List.mem_cons_self _ _)
    rcases List.mem_cons.mp hitem with h | h
    · subst h
      cases item with
      | obj kvs =>
        simp only [loopItems, hpush]
        exact List.mem_cons_self _ _
      | null => simp [Json.isObj] at hobji
      | bool b => simp [Json.isObj] at hobji
      | num n => simp [Json.isObj] at hobji
      | str s => simp [Json.isObj] at hobji
      | arr elems => simp [Json.isObj] at hobji
    · have ihmem := ih (fun j hj => hobj j (List.mem_cons_of_mem i hj)) h
      cases i with
      | obj kvs =>
        simp only [loopItems]
        cases hp : programItemPush (Json.obj kvs) with
        | none => exact ihmem
        | some p => exact List.mem_cons_of_mem p ihmem
      | null => simp [Json.isObj] at hobji
      | bool b => simp [Json.isObj] at hobji
      | num n => simp [Json.isObj] at hobji
      | str s => simp [Json.isObj] at hobji
      | arr elems => simp [Json.isObj] at hobji

theorem programItemPush_is_program_started :
    ∀ item push, programItemPush item = some push → push.1 = "program_started" := by
  intro item push h
  cases item with
  | obj kvs =>
    simp only [programItemPush] at h
    split at h
    · split at h
      · exact congrArg Prod.fst (Option.some.inj h) ▸ rfl
      · exact congrArg Prod.fst (Option.some.inj h) ▸ rfl
      · simp at h
    · simp at h
  | null => simp [programItemPush] at h
  | bool b => simp [programItemPush] at h
  | num n => simp [programItemPush] at h
  | str s => simp [programItemPush] at h
  | arr elems => simp [programItemPush] at h

/-- C1 (amended): for every SSE event whose payload decodes as JSON, the
worker broadcasts the event type and payload unmodified, pushes the
lowercased event type with the verbatim payload as the first persistence
queue entry, additionally synthesizes a status_changed record for a STATUS
event, and, for an EVENT or NOTIFY event whose payload is an object whose
items field is an array of objects, synthesizes (and enqueues) the
program_started record of every item keyed BSH.Common.Root.ActiveProgram
whose value is a truthy object or non-empty string; every synthesized
program record has type program_started. -/
theorem c1_stream_event_processing (ty : String) (pl : Json) :
    (processDecoded ty pl).2 = [(ty, pl)] ∧
    (processDecoded ty pl).1.head? = some (lowerStr ty, pl) ∧
    (ty = "STATUS" →
      ("status_changed", Json.obj [("event", .str ty), ("payload", pl)])
        ∈ (processDecoded ty pl).1) ∧
    (∀ kvs items item,
      (ty = "EVENT" ∨ ty = "NOTIFY") →
      pl = Json.obj kvs →
      dictGet kvs "items" (.arr []) = Json.arr items →
      (∀ j ∈ items, j.isObj = true) →
      item ∈ items →
      ∀ push, programItemPush item = some push →
      push ∈ (processDecoded ty pl).1) ∧
    (∀ item push, programItemPush item = some push → push.1 = "program_started") := by
  refine ⟨rfl, by simp [processDecoded], ?_, ?_, programItemPush_is_program_started⟩
  · intro hty
    subst hty
    simp [processDecoded]
  · intro kvs items item hty hpl hitems hobj hmem push hpush
    subst hpl
    have hmemloop := loopItems_mem hobj hmem hpush
    rcases hty with h | h <;> subst h
    · have hq : (processDecoded "EVENT" (Json.obj kvs)).1
          = (lowerStr "EVENT", Json.obj kvs) :: loopItems items := by
        simp [processDecoded, hitems]
      rw [hq]
      exact List.mem_cons_of_mem _ hmemloop
    · have hq : (processDecoded "NOTIFY" (Json.obj kvs)).1
          = (lowerStr "NOTIFY", Json.obj kvs) :: loopItems items := by
        simp [processDecoded, hitems]
      rw [hq]
      exact List.mem_cons_of_mem _ hmemloop

/-- C1 counterexample: for the EVENT payload whose single item is keyed
BSH.Common.Root.ActiveProgram with the non-null (but falsy) value 0, the
claim as stated predicts a verbatim ("EVENT", payload) queue entry and a
synthesized program_started record; the worker enqueues neither — the only
queue entry is ("event", payload), lowercased and with no program record. -/
theorem c1_counterexample :
    ¬ ((("EVENT",
          Json.obj [("items", Json.arr [Json.obj
            [("key", Json.str "BSH.Common.Root.ActiveProgram"),
             ("value", Json.num 0)]])])
        ∈ (processDecoded "EVENT"
            (Json.obj [("items", Json.arr [Json.obj
              [("key", Json.str "BSH.Common.Root.ActiveProgram"),
               ("value", Json.num 0)]])])).1) ∧
       ∃ q ∈ (processDecoded "EVENT"
            (Json.obj [("items", Json.arr [Json.obj
              [("key", Json.str "BSH.Common.Root.ActiveProgram"),
               ("value", Json.num 0)]])])).1, q.1 = "program_started") := by
  intro h
  have hq : (processDecoded "EVENT"
      (Json.obj [("items", Json.arr [Json.obj
        [("key", Json.str "BSH.Common.Root.ActiveProgram"),
         ("value", Json.num 0)]])])).1
    = [("event", Json.obj [("items", Json.arr [Json.obj
        [("key", Json.str "BSH.Common.Root.ActiveProgram"),
         ("value", Json.num 0)]])])] := rfl
  rw [hq] at h
  rcases h with ⟨hmem, -⟩
  rcases List.mem_cons.mp hmem with h1 | h1
  · exact absurd (congrArg Prod.fst h1) (by decide)
  · cases h1

theorem c1_stream_event_processing_witness :
    ("NOTIFY" = "EVENT" ∨ "NOTIFY" = "NOTIFY") ∧
    (∀ j ∈ [Json.obj [("key", Json.str "BSH.Common.Root.ActiveProgram"),
                      ("value", Json.str "P1")]], Json.isObj j = true) ∧
    ("program_started", Json.obj [("program", Json.str "P1"), ("options", Json.arr [])])
      ∈ (processDecoded "NOTIFY"
          (Json.obj [("items", Json.arr [Json.obj
            [("key", Json.str "BSH.Common.Root.ActiveProgram"),
             ("value", Json.str "P1")]])])).1 :=
  ⟨Or.inr rfl,
   by intro j hj; rcases List.mem_singleton.mp hj with h; subst h; rfl,
   (c1_stream_event_processing "NOTIFY"
      (Json.obj [("items", Json.arr [Json.obj
        [("key", Json.str "BSH.Common.Root.ActiveProgram"),
         ("value", Json.str "P1")]])])).2.2.2.1
     [("items", Json.arr [Json.obj
        [("key", Json.str "BSH.Common.Root.ActiveProgram"),
         ("value", Json.str "P1")]])]
     [Json.obj [("key", Json.str "BSH.Common.Root.ActiveProgram"),
                ("value", Json.str "P1")]]
     (Json.obj [("key", Json.str "BSH.Common.Root.ActiveProgram"),
                ("value", Json.str "P1")])
     (Or.inr rfl) rfl rfl
     (by intro j hj; rcases List.mem_singleton.mp hj with h; subst h; rfl)
     (List.mem_cons_self _ _)
     ("program_started", Json.obj [("program", Json.str "P1"), ("options", Json.arr [])])
     rfl⟩

/-! ## History store lemmas and claims C2, C10 -/

theorem tsDescLe_total : ∀ a b : Row, tsDescLe a b = true ∨ tsDescLe b a = true :=
  fun a b => strLe_total b.timestamp a.timestamp

theorem tsDescLe_trans :
    ∀ a b c : Row, tsDescLe a b = true → tsDescLe b c = true → tsDescLe a c = true :=
  fun _ _ _ hab hbc => strLe_trans _ _ _ hbc hab

theorem optActiveS_of_ne {T : String} (hT : T ≠ "") : optActiveS (some T) = some T := by
  simp [optActiveS, hT]

theorem get_history_cursor (store : List Row) (et : Option String) (L : Nat) (T : String)
    (hL : L ≠ 0) (hT : T ≠ "") :
    get_history store et (some L) (some T)
      = ((sqlPage store et L T).reverse).filterMap decodeRow := by
  simp [get_history, sqlPage, optActiveS, optActiveN, hL, hT]

theorem mem_decode_page {l : List Row} {e : HEvent} (he : e ∈ l.filterMap decodeRow) :
    ∃ r ∈ l, r.timestamp = e.timestamp ∧ r.type = e.type ∧ r.data = some e.data := by
  rcases List.mem_filterMap.mp he with ⟨r, hm, hd⟩
  refine ⟨r, hm, ?_⟩
  unfold decodeRow at hd
  cases h2 : r.data with
  | none => rw [h2] at hd; cases hd
  | some d => rw [h2] at hd; cases hd; exact ⟨rfl, rfl, rfl⟩

theorem mem_sort_filter {le : Row → Row → Bool} {p : Row → Bool} {store : List Row} {r : Row}
    (h : r ∈ sortBy le (store.filter p)) : r ∈ store ∧ p r = true :=
  List.mem_filter.mp (mem_sortBy.mp h)

theorem pairwise_decode {l : List Row}
    (h : l.Pairwise (fun a b => strLe a.timestamp b.timestamp = true)) :
    (l.filterMap decodeRow).Pairwise
      (fun a b : HEvent => strLe a.timestamp b.timestamp = true) := by
  induction l with
  | nil => simp
  | cons r rs ih =>
    rcases List.pairwise_cons.mp h with ⟨hr, hrs⟩
    cases hd : r.data with
    | none =>
      simp only [List.filterMap_cons, decodeRow, hd]
      exact ih hrs
    | some d =>
      simp only [List.filterMap_cons, decodeRow, hd]
      refine List.pairwise_cons.mpr ⟨?_, ih hrs⟩
      intro e he
      rcases mem_decode_page he with ⟨r2, hr2mem, hts, -, -⟩
      show strLe r.timestamp e.timestamp = true
      rw [← hts]
      exact hr r2 hr2mem

theorem get_history_mem_source (store : List Row) (event_type : Option String)
    (limit : Option Nat) (before_timestamp : Option String) :
    ∀ e ∈ get_history store event_type limit before_timestamp,
      ∃ r ∈ store, r.timestamp = e.timestamp ∧ r.type = e.type ∧ r.data = some e.data := by
  intro e he
  simp only [get_history] at he
  rcases hbt : optActiveS before_timestamp with _ | c <;>
    rcases hlim : optActiveN limit with _ | l <;>
    rw [hbt, hlim] at he <;>
    simp only [] at he <;>
    rcases mem_decode_page he with ⟨r, hm, hts, hty, hdata⟩
  · exact ⟨r, (mem_sort_filter hm).1, hts, hty, hdata⟩
  · rw [List.mem_reverse] at hm
    exact ⟨r, (mem_sort_filter (List.take_subset _ _ hm)).1, hts, hty, hdata⟩
  · rw [List.mem_reverse] at hm
    exact ⟨r, (mem_sort_filter hm).1, hts, hty, hdata⟩
  · rw [List.mem_reverse] at hm
    exact ⟨r, (mem_sort_filter (List.take_subset _ _ hm)).1, hts, hty, hdata⟩

/-- C2: for every stored event set, every non-empty cursor timestamp T and
positive limit L, get_history(before_timestamp=T, limit=L) returns at most L
events, every returned event has timestamp strictly below T under SQLite's
TEXT comparison, the result is sorted in ascending timestamp order, and the
events are taken from the most recent qualifying page: any matching stored
row left out of that page has a timestamp no greater than every returned
event's (never-the-oldest-L). -/
theorem c2_history_pagination (store : List Row) (et : Option String) (L : Nat) (T : String)
    (hL : 0 < L) (hT : T ≠ "") :
    (get_history store et (some L) (some T)).length ≤ L ∧
    (∀ e ∈ get_history store et (some L) (some T), strLt e.timestamp T = true) ∧
    (get_history store et (some L) (some T)).Pairwise
      (fun a b => strLe a.timestamp b.timestamp = true) ∧
    (∀ r ∈ store, historyMatches (optActiveS et) (some T) r = true →
      r ∉ sqlPage store et L T →
      ∀ e ∈ get_history store et (some L) (some T),
        strLe r.timestamp e.timestamp = true) := by
  have hcur := get_history_cursor store et L T (by omega) hT
  have hpage : sqlPage store et L T
      = (sortBy tsDescLe (store.filter (historyMatches (optActiveS et) (some T)))).take L := by
    rw [sqlPage, optActiveS_of_ne hT]
  have hsorted := sortBy_pairwise tsDescLe_total tsDescLe_trans
    (store.filter (historyMatches (optActiveS et) (some T)))
  have hpage_sorted : (sqlPage store et L T).Pairwise (fun a b => tsDescLe a b = true) := by
    rw [hpage]
    exact List.Pairwise.sublist (List.take_sublist _ _) hsorted
  refine ⟨?_, ?_, ?_, ?_⟩
  · rw [hcur]
    refine le_trans (List.length_filterMap_le _ _) ?_
    rw [List.length_reverse, hpage]
    exact List.length_take_le _ _
  · intro e he
    rw [hcur] at he
    rcases mem_decode_page he with ⟨r, hm, hts, -, -⟩
    rw [List.mem_reverse, hpage] at hm
    have hmatch := (mem_sort_filter (List.take_subset _ _ hm)).2
    simp only [historyMatches, Bool.and_eq_true] at hmatch
    rw [← hts]
    exact hmatch.2
  · rw [hcur]
    apply pairwise_decode
    rw [List.pairwise_reverse]
    exact hpage_sorted.imp (fun h => h)
  · intro r hr hmatch hnotpage e he
    have hrfil : r ∈ store.filter (historyMatches (optActiveS et) (some T)) :=
      List.mem_filter.mpr ⟨hr, hmatch⟩
    have hrs : r ∈ sortBy tsDescLe (store.filter (historyMatches (optActiveS et) (some T))) :=
      mem_sortBy.mpr hrfil
    set s := sortBy tsDescLe (store.filter (historyMatches (optActiveS et) (some T))) with hs
    have hsplit : s.take L ++ s.drop L = s := List.take_append_drop L s
    have hdrop : r ∈ s.drop L := by
      rcases List.mem_append.mp (hsplit ▸ hrs) with h | h
      · exact absurd (by rw [hpage]; exact h) hnotpage
      · exact h
    have hcross := (List.pairwise_append.mp (hsplit ▸ hsorted)).2.2
    rw [hcur] at he
    rcases mem_decode_page he with ⟨r2, hm2, hts2, -, -⟩
    rw [List.mem_reverse, hpage] at hm2
    have := hcross r2 hm2 r hdrop
    rw [← hts2]
    exact this

theorem c2_history_pagination_witness :
    0 < 1 ∧ ("2024-01-02T00:00:00+00:00" : String) ≠ "" ∧
    ((get_history [⟨"2024-01-01T00:00:00+00:00", "a", some (Json.num 1)⟩]
        none (some 1) (some "2024-01-02T00:00:00+00:00")).length ≤ 1 ∧
      (∀ e ∈ get_history [⟨"2024-01-01T00:00:00+00:00", "a", some (Json.num 1)⟩]
          none (some 1) (some "2024-01-02T00:00:00+00:00"),
        strLt e.timestamp "2024-01-02T00:00:00+00:00" = true) ∧
      (get_history [⟨"2024-01-01T00:00:00+00:00", "a", some (Json.num 1)⟩]
          none (some 1) (some "2024-01-02T00:00:00+00:00")).Pairwise
        (fun a b => strLe a.timestamp b.timestamp = true) ∧
      (∀ r ∈ ([⟨"2024-01-01T00:00:00+00:00", "a", some (Json.num 1)⟩] : List Row),
        historyMatches (optActiveS none) (some "2024-01-02T00:00:00+00:00") r = true →
        r ∉ sqlPage [⟨"2024-01-01T00:00:00+00:00", "a", some (Json.num 1)⟩]
            none 1 "2024-01-02T00:00:00+00:00" →
        ∀ e ∈ get_history [⟨"2024-01-01T00:00:00+00:00", "a", some (Json.num 1)⟩]
            none (some 1) (some "2024-01-02T00:00:00+00:00"),
          strLe r.timestamp e.timestamp = true)) :=
  ⟨by decide, by decide,
    c2_history_pagination [⟨"2024-01-01T00:00:00+00:00", "a", some (Json.num 1)⟩]
      none 1 "2024-01-02T00:00:00+00:00" (by decide) (by decide)⟩

/-- C10: get_history silently omits any stored row whose data column is not
valid JSON — every returned event comes from a stored row with decodable
data — so, concretely, a two-row store whose rows both match the (absent)
filters yields only one event under limit 2: fewer than limit even though
at least limit rows match. -/
theorem c10_invalid_json_skipped :
    (∀ (store : List Row) (event_type : Option String) (limit : Option Nat)
        (before_timestamp : Option String),
      ∀ e ∈ get_history store event_type limit before_timestamp,
        ∃ r ∈ store, r.timestamp = e.timestamp ∧ r.type = e.type ∧ r.data = some e.data) ∧
    get_history
      [⟨"2024-01-01T00:00:00+00:00", "a", some (Json.num 1)⟩,
       ⟨"2024-01-02T00:00:00+00:00", "a", none⟩] none (some 2) none
      = [⟨"2024-01-01T00:00:00+00:00", "a", Json.num 1⟩] ∧
    (([⟨"2024-01-01T00:00:00+00:00", "a", some (Json.num 1)⟩,
       ⟨"2024-01-02T00:00:00+00:00", "a", none⟩] : List Row).filter
        (historyMatches (optActiveS none) (optActiveS none))).length = 2 :=
  ⟨get_history_mem_source, rfl, rfl⟩

theorem c10_invalid_json_skipped_witness :
    (⟨"2024-01-01T00:00:00+00:00", "a", Json.num 1⟩ : HEvent) ∈
      get_history [⟨"2024-01-01T00:00:00+00:00", "a", some (Json.num 1)⟩] none none none ∧
    ∃ r ∈ ([⟨"2024-01-01T00:00:00+00:00", "a", some (Json.num 1)⟩] : List Row),
      r.timestamp = (⟨"2024-01-01T00:00:00+00:00", "a", Json.num 1⟩ : HEvent).timestamp ∧
      r.type = (⟨"2024-01-01T00:00:00+00:00", "a", Json.num 1⟩ : HEvent).type ∧
      r.data = some (⟨"2024-01-01T00:00:00+00:00", "a", Json.num 1⟩ : HEvent).data :=
  have hmem : (⟨"2024-01-01T00:00:00+00:00", "a", Json.num 1⟩ : HEvent) ∈
      get_history [⟨"2024-01-01T00:00:00+00:00", "a", some (Json.num 1)⟩] none none none := by
    rw [show get_history [⟨"2024-01-01T00:00:00+00:00", "a", some (Json.num 1)⟩] none none none
        = [⟨"2024-01-01T00:00:00+00:00", "a", Json.num 1⟩] from rfl]
    exact List.mem_singleton.mpr rfl
  ⟨hmem,
    c10_invalid_json_skipped.1 [⟨"2024-01-01T00:00:00+00:00", "a", some (Json.num 1)⟩]
      none none none ⟨"2024-01-01T00:00:00+00:00", "a", Json.num 1⟩ hmem⟩

/-! ## Calendar lemmas for claim C3 -/

theorem daysInMonth_le31 (y m : Nat) : daysInMonth y m ≤ 31 := by
  unfold daysInMonth
  repeat' split
  all_goals omega

theorem digitChar_inj : ∀ a < 10, ∀ b < 10, digitChar a = digitChar b → a = b := by
  decide

theorem validDate_unfold {d : Date} (h : validDate d = true) :
    1000 ≤ d.year ∧ d.year ≤ 9999 ∧ 1 ≤ d.month ∧ d.month ≤ 12 ∧
    1 ≤ d.day ∧ d.day ≤ daysInMonth d.year d.month := by
  simp only [validDate, Bool.and_eq_true, decide_eq_true_eq] at h
  exact ⟨h.1.1.1.1.1, h.1.1.1.1.2, h.1.1.1.2, h.1.1.2, h.1.2, h.2⟩

theorem fmtDate_inj {d1 d2 : Date} (h1 : validDate d1 = true) (h2 : validDate d2 = true)
    (heq : fmtDate d1 = fmtDate d2) : d1 = d2 := by
  obtain ⟨hy1a, hy1b, hm1a, hm1b, hd1a, hd1b⟩ := validDate_unfold h1
  obtain ⟨hy2a, hy2b, hm2a, hm2b, hd2a, hd2b⟩ := validDate_unfold h2
  have hdm1 := daysInMonth_le31 d1.year d1.month
  have hdm2 := daysInMonth_le31 d2.year d2.month
  have hl := congrArg String.data heq
  simp only [fmtDate] at hl
  simp only [List.cons.injEq, and_true] at hl
  obtain ⟨e1, e2, e3, e4, -, e5, e6, -, e7, e8⟩ := hl
  have g1 := digitChar_inj _ (Nat.mod_lt _ (by omega)) _ (Nat.mod_lt _ (by omega)) e1
  have g2 := digitChar_inj _ (Nat.mod_lt _ (by omega)) _ (Nat.mod_lt _ (by omega)) e2
  have g3 := digitChar_inj _ (Nat.mod_lt _ (by omega)) _ (Nat.mod_lt _ (by omega)) e3
  have g4 := digitChar_inj _ (Nat.mod_lt _ (by omega)) _ (Nat.mod_lt _ (by omega)) e4
  have g5 := digitChar_inj _ (Nat.mod_lt _ (by omega)) _ (Nat.mod_lt _ (by omega)) e5
  have g6 := digitChar_inj _ (Nat.mod_lt _ (by omega)) _ (Nat.mod_lt _ (by omega)) e6
  have g7 := digitChar_inj _ (Nat.mod_lt _ (by omega)) _ (Nat.mod_lt _ (by omega)) e7
  have g8 := digitChar_inj _ (Nat.mod_lt _ (by omega)) _ (Nat.mod_lt _ (by omega)) e8
  have hy : d1.year = d2.year := by omega
  have hm : d1.month = d2.month := by omega
  have hd : d1.day = d2.day := by omega
  cases d1; cases d2
  simp_all

theorem dateVal_prevDay_lt {d : Date} (h : validDate d = true) :
    dateVal (prevDay d) < dateVal d := by
  obtain ⟨hya, hyb, hma, hmb, hda, hdb⟩ := validDate_unfold h
  have hdm := daysInMonth_le31 d.year (d.month - 1)
  have hdm2 := daysInMonth_le31 d.year d.month
  unfold prevDay dateVal
  split
  · simp only
    omega
  · split
    · simp only
      omega
    · simp only
      omega

theorem subDays_val_lt (today : Date) (days : Nat)
    (hv : ∀ i < days, validDate (subDays today i) = true) :
    ∀ j < days, ∀ i < j, dateVal (subDays today j) < dateVal (subDays today i) := by
  intro j
  induction j with
  | zero => intro _ i hi; omega
  | succ j ih =>
    intro hj i hi
    have hstep : dateVal (subDays today (j + 1)) < dateVal (subDays today j) := by
      have := dateVal_prevDay_lt (hv j (by omega))
      simpa [subDays] using this
    rcases Nat.lt_succ_iff_lt_or_eq.mp hi with h | h
    · exact lt_trans hstep (ih (by omega) i h)
    · subst h
      exact hstep

theorem windowDates_mem {today : Date} {days : Nat} {d : Date}
    (h : d ∈ windowDates today days) : ∃ i < days, d = subDays today i := by
  rcases List.mem_map.mp h with ⟨i, hi, rfl⟩
  rw [List.mem_reverse] at hi
  exact ⟨i, List.mem_range.mp hi, rfl⟩

theorem windowDates_valid {today : Date} {days : Nat}
    (hv : ∀ i < days, validDate (subDays today i) = true) :
    ∀ d ∈ windowDates today days, validDate d = true := by
  intro d hd
  rcases windowDates_mem hd with ⟨i, hi, rfl⟩
  exact hv i hi

theorem windowDates_pairwise (today : Date) (days : Nat)
    (hv : ∀ i < days, validDate (subDays today i) = true) :
    (windowDates today days).Pairwise (fun a b => dateVal a < dateVal b) := by
  unfold windowDates
  rw [List.pairwise_map, List.pairwise_reverse]
  have hr : (List.range days).Pairwise (· < ·) := List.pairwise_lt_range days
  refine hr.imp_of_mem ?_
  intro a b ha hb hab
  exact subDays_val_lt today days hv b (List.mem_range.mp hb) a hab

theorem windowKeys_nodup (today : Date) (days : Nat)
    (hv : ∀ i < days, validDate (subDays today i) = true) :
    (windowKeys today days).Nodup := by
  have hdates : (windowDates today days).Nodup :=
    (windowDates_pairwise today days hv).imp
      (fun {a b} h => fun he => by rw [he] at h; omega)
  refine hdates.map_on ?_
  intro x hx y hy hxy
  exact fmtDate_inj (windowDates_valid hv x hx) (windowDates_valid hv y hy) hxy

/-! ## Daily-usage loop lemmas -/

theorem dailyLoop_isSome_iff (wk : List String) : ∀ (rows : List Row) (acc : String → Nat),
    (dailyLoop wk rows acc).isSome = true ↔
      ∀ r ∈ rows, (rowDateKey wk r).isSome = true := by
  intro rows
  induction rows with
  | nil => intro acc; simp [dailyLoop]
  | cons r rs ih =>
    intro acc
    cases h : rowDateKey wk r with
    | none => simp [dailyLoop, h]
    | some o =>
      cases o with
      | none =>
        simp only [dailyLoop, h, List.mem_cons]
        rw [ih acc]
        constructor
        · intro ha x hx
          rcases hx with hx | hx
          · subst hx; simp [h]
          · exact ha x hx
        · intro ha x hx
          exact ha x (Or.inr hx)
      | some k =>
        simp only [dailyLoop, h, List.mem_cons]
        rw [ih _]
        constructor
        · intro ha x hx
          rcases hx with hx | hx
          · subst hx; simp [h]
          · exact ha x hx
        · intro ha x hx
          exact ha x (Or.inr hx)

theorem dailyLoop_count (wk : List String) : ∀ (rows : List Row) (acc acc2 : String → Nat),
    dailyLoop wk rows acc = some acc2 →
    ∀ k, acc2 k = acc k + rows.countP (fun r => rowDateKey wk r == some (some k)) := by
  intro rows
  induction rows with
  | nil =>
    intro acc acc2 h k
    simp only [dailyLoop, Option.some.injEq] at h
    subst h
    simp
  | cons r rs ih =>
    intro acc acc2 h k
    rw [List.countP_cons]
    cases hr : rowDateKey wk r with
    | none =>
      rw [dailyLoop, hr] at h
      simp at h
    | some o =>
      cases o with
      | none =>
        rw [dailyLoop, hr] at h
        simp at h
        have hc := ih acc acc2 h k
        have hif : (if (some (none : Option String) == some (some k)) = true then 1 else 0)
            = 0 := by simp
        rw [hif]
        omega
      | some k2 =>
        rw [dailyLoop, hr] at h
        simp at h
        have hc := ih _ acc2 h k
        by_cases hk : k = k2
        · subst hk
          have hif : (if (some (some k) == some (some k) : Bool) = true then 1 else 0)
              = 1 := by simp
          rw [hif]
          simp at hc
          omega
        · have hif : (if (some (some k2) == some (some k)) = true then 1 else 0)
              = 0 := by simp [Ne.symm hk]
          rw [hif]
          simp [hk] at hc
          omega

theorem getDailyUsage_char (store : List Row) (today : Date) (days : Nat) :
    getDailyUsage store today days
      = if (store.filter (fun r => r.type == "program_started" &&
              strLe (cutoffOf today days) r.timestamp)).all
              (fun r => (rowDateKey (windowKeys today days) r).isSome)
        then some ((windowKeys today days).map
              (fun k => (k, store.countP (dailyQualifies today days k))))
        else none := by
  unfold getDailyUsage
  set p : Row → Bool := fun r => r.type == "program_started" &&
    strLe (cutoffOf today days) r.timestamp with hp
  set wk := windowKeys today days with hwk
  set fl := store.filter p with hfl
  set rows := sortBy tsAscLe fl with hrows
  by_cases hall : fl.all (fun r => (rowDateKey wk r).isSome) = true
  · rw [if_pos hall]
    have hallrows : ∀ r ∈ rows, (rowDateKey wk r).isSome = true := by
      intro r hr
      exact List.all_eq_true.mp hall r (mem_sortBy.mp hr)
    obtain ⟨acc2, hacc⟩ := Option.isSome_iff_exists.mp
      ((dailyLoop_isSome_iff wk rows _).mpr hallrows)
    rw [hacc]
    refine congrArg some (List.map_congr_left ?_)
    intro k hk
    have hcount := dailyLoop_count wk rows (fun _ => 0) acc2 hacc k
    simp only [Nat.zero_add] at hcount
    have hc2 : List.countP (fun r => rowDateKey wk r == some (some k)) rows
        = store.countP (dailyQualifies today days k) := by
      have hperm := (sortBy_perm tsAscLe fl).countP_eq
        (fun r => rowDateKey wk r == some (some k))
      rw [hrows, hperm, hfl, List.countP_filter]
      apply List.countP_congr
      intro r _
      have heq : ((rowDateKey wk r == some (some k)) && p r)
          = dailyQualifies today days k r := by
        unfold dailyQualifies
        simp only [hp, hwk]
        exact Bool.and_comm _ _
      rw [heq]
    rw [hcount, hc2]
  · rw [if_neg hall]
    have hnone : dailyLoop wk rows (fun _ => 0) = none := by
      cases hres : dailyLoop wk rows (fun _ => 0) with
      | none => rfl
      | some acc2 =>
        exfalso
        apply hall
        rw [List.all_eq_true]
        intro r hr
        exact (dailyLoop_isSome_iff wk rows _).mp (by rw [hres]; rfl) r (mem_sortBy.mpr hr)
    rw [hnone]
    rfl

theorem brewCheck_true {v : Json} (h : brewCheck v = some true) :
    ∃ s, v = Json.str s ∧ is_brew_program s = true := by
  cases v with
  | str s =>
    simp only [brewCheck, Option.some.injEq] at h
    exact ⟨s, rfl, h⟩
  | null => simp [brewCheck, Json.truthy] at h
  | bool b => cases b <;> simp [brewCheck, Json.truthy] at h
  | num n =>
    simp only [brewCheck, Json.truthy] at h
    split at h
    · cases h
    · simp at h
  | arr elems =>
    simp only [brewCheck, Json.truthy] at h
    split at h
    · cases h
    · simp at h
  | obj kvs =>
    simp only [brewCheck, Json.truthy] at h
    split at h
    · cases h
    · simp at h

theorem rowDateKey_brew {wk : List String} {r : Row} {k : String}
    (h : rowDateKey wk r = some (some k)) :
    ∃ kvs s, r.data = some (Json.obj kvs) ∧
      (Json.lookup kvs "program").getD (Json.str "Unknown") = Json.str s ∧
      is_brew_program s = true := by
  unfold rowDateKey at h
  cases hd : r.data with
  | none => rw [hd] at h; simp at h
  | some d =>
    rw [hd] at h
    cases d with
    | obj kvs =>
      refine ⟨kvs, ?_⟩
      dsimp only at h
      cases hb : brewCheck ((Json.lookup kvs "program").getD (Json.str "Unknown")) with
      | none => rw [hb] at h; cases h
      | some b =>
        cases b with
        | false => rw [hb] at h; simp at h
        | true =>
          rcases brewCheck_true hb with ⟨s, hs, hbrew⟩
          exact ⟨s, rfl, hs, hbrew⟩
    | null => simp at h
    | bool b => simp at h
    | num n => simp at h
    | str s => simp at h
    | arr elems => simp at h

/-- C3 (amended): for every positive N and every store on which the call
does not raise (every selected program_started row has a JSON-object
payload whose program value is a string or falsy — otherwise the Python
loop raises an uncaught AttributeError and returns nothing),
get_daily_usage(days=N) returns a mapping whose keys are exactly the N
distinct YYYY-MM-DD keys of the trailing window ending today (UTC),
zero-filled for days with no qualifying events, each value counting exactly
the stored program_started events within the cutoff whose brew-classified
program identifier dates to that key. -/
theorem c3_daily_usage_window (store : List Row) (today : Date) (days : Nat)
    (m : List (String × Nat))
    (hdays : 0 < days)
    (hv : ∀ i < days, validDate (subDays today i) = true)
    (hm : getDailyUsage store today days = some m) :
    m.length = days ∧
    m.map Prod.fst = windowKeys today days ∧
    (windowKeys today days).Nodup ∧
    (∀ kv ∈ m, kv.2 = store.countP (dailyQualifies today days kv.1)) ∧
    (∀ k ∈ windowKeys today days,
      (∀ r ∈ store, dailyQualifies today days k r = false) → (k, 0) ∈ m) ∧
    (∀ r ∈ store, ∀ k, rowDateKey (windowKeys today days) r = some (some k) →
      ∃ kvs s, r.data = some (Json.obj kvs) ∧
        (Json.lookup kvs "program").getD (Json.str "Unknown") = Json.str s ∧
        is_brew_program s = true) := by
  rw [getDailyUsage_char] at hm
  split at hm
  swap
  · cases hm
  rename_i hall
  have hm2 : m = (windowKeys today days).map
      (fun k => (k, store.countP (dailyQualifies today days k))) :=
    (Option.some.inj hm).symm
  subst hm2
  refine ⟨?_, ?_, windowKeys_nodup today days hv, ?_, ?_, ?_⟩
  · rw [List.length_map]
    simp [windowKeys, windowDates]
  · rw [List.map_map]
    have hid : (Prod.fst ∘ fun k : String =>
        (k, store.countP (dailyQualifies today days k))) = id := rfl
    rw [hid, List.map_id]
  · intro kv hkv
    rcases List.mem_map.mp hkv with ⟨k, hk, rfl⟩
    rfl
  · intro k hk hnone
    have hz : store.countP (dailyQualifies today days k) = 0 := by
      rw [List.countP_eq_zero]
      intro r hr
      simp [hnone r hr]
    refine List.mem_map.mpr ⟨k, hk, ?_⟩
    rw [hz]
  · intro r _ k hkey
    exact rowDateKey_brew hkey

/-- C3 counterexample: a store holding one program_started row whose data
decodes to the JSON string "x" (not an object) makes the loop's
data.get("program", "Unknown") raise an uncaught AttributeError, so
get_daily_usage(days=1) raises instead of returning a 1-key mapping. -/
theorem c3_counterexample :
    getDailyUsage
      [⟨"9999-01-01T00:00:00+00:00", "program_started", some (Json.str "x")⟩]
      ⟨2026, 10, 12⟩ 1 = none := by
  decide

theorem c3_daily_usage_window_witness :
    0 < 2 ∧
    (∀ i < 2, validDate (subDays ⟨2026, 10, 12⟩ i) = true) ∧
    getDailyUsage
      [⟨"2026-10-12T08:00:00+00:00", "program_started",
        some (Json.obj [("program",
          Json.str "ConsumerProducts.CoffeeMaker.Program.Beverage.Coffee"),
          ("options", Json.arr [])])⟩]
      ⟨2026, 10, 12⟩ 2 = some [("2026-10-11", 0), ("2026-10-12", 1)] ∧
    ([("2026-10-11", 0), ("2026-10-12", 1)] : List (String × Nat)).map Prod.fst
      = windowKeys ⟨2026, 10, 12⟩ 2 ∧
    (windowKeys ⟨2026, 10, 12⟩ 2).Nodup :=
  ⟨by decide, by decide, by decide,
    ((c3_daily_usage_window
      [⟨"2026-10-12T08:00:00+00:00", "program_started",
        some (Json.obj [("program",
          Json.str "ConsumerProducts.CoffeeMaker.Program.Beverage.Coffee"),
          ("options", Json.arr [])])⟩]
      ⟨2026, 10, 12⟩ 2 [("2026-10-11", 0), ("2026-10-12", 1)]
      (by decide) (by decide) (by decide)).2.1),
    ((c3_daily_usage_window
      [⟨"2026-10-12T08:00:00+00:00", "program_started",
        some (Json.obj [("program",
          Json.str "ConsumerProducts.CoffeeMaker.Program.Beverage.Coffee"),
          ("options", Json.arr [])])⟩]
      ⟨2026, 10, 12⟩ 2 [("2026-10-11", 0), ("2026-10-12", 1)]
      (by decide) (by decide) (by decide)).2.2.1)⟩

/-! ## Cleaning-marker lemmas and claim C4 -/

theorem cleaningmodes_not_brew (s : String)
    (h : containsSub (lowerStr s) "cleaningmodes" = true) : is_brew_program s = false := by
  have hs : ¬ (s = "") := by
    intro he
    subst he
    revert h
    decide
  simp [is_brew_program, hs, h]

theorem marker_shape {r : Row} (h : hasCleaningMarker r = true) :
    ∃ kvs s, r.data = some (Json.obj kvs) ∧ Json.lookup kvs "program" = some (Json.str s) ∧
      containsSub (lowerStr s) "cleaningmodes" = true := by
  unfold hasCleaningMarker at h
  cases hd : r.data with
  | none => rw [hd] at h; cases h
  | some d =>
    rw [hd] at h
    cases d with
    | obj kvs =>
      dsimp only at h
      cases hp : Json.lookup kvs "program" with
      | none => rw [hp] at h; cases h
      | some v =>
        rw [hp] at h
        cases v with
        | str s => exact ⟨kvs, s, rfl, hp, h⟩
        | null => cases h
        | bool b => cases h
        | num n => cases h
        | arr elems => cases h
        | obj kvs2 => cases h
    | null => cases h
    | bool b => cases h
    | num n => cases h
    | str s => cases h
    | arr elems => cases h

theorem marker_rowProgram {r : Row} (h : hasCleaningMarker r = true) :
    rowProgram r = some none := by
  rcases marker_shape h with ⟨kvs, s, hd, hp, hc⟩
  unfold rowProgram
  rw [hd]
  dsimp only
  rw [hp]
  dsimp only [Option.getD]
  rw [show brewCheck (Json.str s) = some (is_brew_program s) from rfl,
    cleaningmodes_not_brew s hc]

theorem marker_rowDateKey {wk : List String} {r : Row} (h : hasCleaningMarker r = true) :
    rowDateKey wk r = some none := by
  rcases marker_shape h with ⟨kvs, s, hd, hp, hc⟩
  unfold rowDateKey
  rw [hd]
  dsimp only
  rw [hp]
  dsimp only [Option.getD]
  rw [show brewCheck (Json.str s) = some (is_brew_program s) from rfl,
    cleaningmodes_not_brew s hc]

theorem marker_daily_false {today : Date} {days : Nat} {k : String} {r : Row}
    (h : hasCleaningMarker r = true) : dailyQualifies today days k r = false := by
  unfold dailyQualifies
  rw [marker_rowDateKey h]
  simp

theorem countsLoop_skip_subfilter (p q : Row → Bool)
    (hq : ∀ r, p r = true → q r = false → rowProgram r = some none) :
    ∀ (store : List Row) (acc : List (String × Nat)),
      countsLoop (store.filter (fun r => p r && q r)) acc
        = countsLoop (store.filter p) acc := by
  intro store
  induction store with
  | nil => intro acc; rfl
  | cons r rs ih =>
    intro acc
    cases hp : p r with
    | false =>
      simp only [List.filter_cons, hp, Bool.false_and, Bool.false_eq_true, if_false]
      exact ih acc
    | true =>
      cases hq2 : q r with
      | true =>
        simp only [List.filter_cons, hp, hq2, Bool.and_self, if_true]
        cases hrp : rowProgram r with
        | none => simp [countsLoop, hrp]
        | some o =>
          cases o with
          | none =>
            simp only [countsLoop, hrp]
            exact ih acc
          | some pk =>
            simp only [countsLoop, hrp]
            exact ih (bumpKey acc pk)
      | false =>
        have hskip := hq r hp hq2
        simp only [List.filter_cons, hp, hq2, Bool.and_false, Bool.false_eq_true, if_false,
          if_true]
        rw [show countsLoop (r :: List.filter p rs) acc = countsLoop (List.filter p rs) acc by
          simp only [countsLoop, hskip]]
        exact ih acc

theorem c4_counts_invariance (store : List Row) :
    getProgramCounts (store.filter (fun r => !hasCleaningMarker r))
      = getProgramCounts store := by
  unfold getProgramCounts
  rw [List.filter_filter]
  exact countsLoop_skip_subfilter _ _
    (fun r _ hq => marker_rowProgram (by
      cases hmk : hasCleaningMarker r
      · rw [hmk] at hq; cases hq
      · rfl)) store []

theorem c4_daily_invariance (store : List Row) (today : Date) (days : Nat) :
    getDailyUsage (store.filter (fun r => !hasCleaningMarker r)) today days
      = getDailyUsage store today days := by
  rw [getDailyUsage_char, getDailyUsage_char]
  have hcnt : ∀ k, (store.filter (fun r => !hasCleaningMarker r)).countP
      (dailyQualifies today days k) = store.countP (dailyQualifies today days k) := by
    intro k
    rw [List.countP_filter]
    apply List.countP_congr
    intro r _
    cases hmk : hasCleaningMarker r
    · simp
    · rw [marker_daily_false hmk]
      simp
  set X := ((store.filter (fun r => !hasCleaningMarker r)).filter
      (fun r => r.type == "program_started" && strLe (cutoffOf today days) r.timestamp)).all
      (fun r => (rowDateKey (windowKeys today days) r).isSome) with hX
  set Y := (store.filter
      (fun r => r.type == "program_started" && strLe (cutoffOf today days) r.timestamp)).all
      (fun r => (rowDateKey (windowKeys today days) r).isSome) with hY
  have hiff : X = true ↔ Y = true := by
    rw [hX, hY, List.all_eq_true, List.all_eq_true]
    constructor
    · intro ha r hr
      rcases List.mem_filter.mp hr with ⟨hrs, hrp⟩
      cases hmk : hasCleaningMarker r
      · exact ha r (List.mem_filter.mpr
          ⟨List.mem_filter.mpr ⟨hrs, by rw [hmk]; rfl⟩, hrp⟩)
      · rw [marker_rowDateKey hmk]
        rfl
    · intro ha r hr
      rcases List.mem_filter.mp hr with ⟨hrs, hrp⟩
      exact ha r (List.mem_filter.mpr ⟨(List.mem_filter.mp hrs).1, hrp⟩)
  by_cases hx : X = true
  · rw [if_pos hx, if_pos (hiff.mp hx)]
    refine congrArg some (List.map_congr_left ?_)
    intro k _
    rw [hcnt k]
  · rw [if_neg hx, if_neg (fun h => hx (hiff.mpr h))]

/-- C4 (amended): the brew-vs-cleaning classification excludes every
identifier containing the cleaning-mode marker, includes every non-empty
identifier containing a beverage marker and no cleaning-mode marker,
otherwise excludes non-empty identifiers containing any cleaning keyword,
classifies every remaining non-empty identifier as a brew program, and
classifies the empty identifier as not-brew; consequently events whose
program identifier contains a cleaning-mode marker can be deleted from the
store without changing get_program_counts() or get_daily_usage() — they
never contribute. -/
theorem c4_brew_classification :
    (∀ s : String, containsSub (lowerStr s) "cleaningmodes" = true →
      is_brew_program s = false) ∧
    (∀ s : String, s ≠ "" → containsSub (lowerStr s) "cleaningmodes" = false →
      containsSub (lowerStr s) "beverage" = true → is_brew_program s = true) ∧
    (∀ s : String, s ≠ "" → containsSub (lowerStr s) "cleaningmodes" = false →
      containsSub (lowerStr s) "beverage" = false →
      (["rinsing", "descaling", "cleaning"].any
        (fun kw => containsSub (lowerStr s) kw)) = true →
      is_brew_program s = false) ∧
    (∀ s : String, s ≠ "" → containsSub (lowerStr s) "cleaningmodes" = false →
      containsSub (lowerStr s) "beverage" = false →
      (["rinsing", "descaling", "cleaning"].any
        (fun kw => containsSub (lowerStr s) kw)) = false →
      is_brew_program s = true) ∧
    is_brew_program "" = false ∧
    (∀ store : List Row,
      getProgramCounts (store.filter (fun r => !hasCleaningMarker r))
        = getProgramCounts store) ∧
    (∀ (store : List Row) (today : Date) (days : Nat),
      getDailyUsage (store.filter (fun r => !hasCleaningMarker r)) today days
        = getDailyUsage store today days) := by
  refine ⟨cleaningmodes_not_brew, ?_, ?_, ?_, by decide,
    c4_counts_invariance, c4_daily_invariance⟩
  · intro s hs hcm hbev
    simp [is_brew_program, hs, hcm, hbev]
  · intro s hs hcm hbev hkw
    simp [is_brew_program, hs, hcm, hbev, hkw]
  · intro s hs hcm hbev hkw
    simp [is_brew_program, hs, hcm, hbev, hkw]

/-- C4 counterexample: the empty identifier contains no cleaning-mode
marker, no beverage marker and no cleaning keyword, so under the claim's
four-way classification it is a remaining identifier and would be a brew
program — but _is_brew_program("") returns False. -/
theorem c4_counterexample :
    containsSub (lowerStr "") "cleaningmodes" = false ∧
    containsSub (lowerStr "") "beverage" = false ∧
    (["rinsing", "descaling", "cleaning"].any
      (fun kw => containsSub (lowerStr "") kw)) = false ∧
    is_brew_program "" = false := by
  decide

theorem c4_brew_classification_witness :
    ("X.Beverage.Y" : String) ≠ "" ∧
    containsSub (lowerStr "X.Beverage.Y") "cleaningmodes" = false ∧
    containsSub (lowerStr "X.Beverage.Y") "beverage" = true ∧
    is_brew_program "X.Beverage.Y" = true :=
  ⟨by decide, by decide, by decide,
    c4_brew_classification.2.1 "X.Beverage.Y" (by decide) (by decide) (by decide)⟩
